import Mathlib

/-!
Verification of the `nomicon` crate's memory-management primitives:
the growable buffer (`src/vec.rs` and the copy in `src/lib.rs`), the
borrow-checked cell (`src/cell.rs`), and the two reference-counted
pointers (`src/rc.rs`, `src/arc.rs`).

The heap region backing a buffer is modelled as `List (Option T)`:
`some v` is an initialized slot holding `v`, `none` an uninitialized
slot.  The `cap` field of the Rust struct is the length of that region;
`len` counts the initialized prefix.  `ptr::read` of an uninitialized
slot is undefined behaviour in Rust; the model collapses it to `none`,
and every theorem below is stated over well-formed buffers
(`Vec.reps`), where such a read never happens.
-/

namespace Nomicon

/-- `Vec<T> { ptr, cap, len }` from `src/vec.rs`: `data` is the `cap`-slot
heap region behind `ptr`; `len` the number of initialized leading slots. -/
structure Vec (T : Type) where
  data : List (Option T)
  len : Nat
deriving DecidableEq

/-- The `cap` field: the size of the allocated region. -/
def Vec.cap (v : Vec T) : Nat := v.data.length

/-- `ptr::read(self.ptr.add(i))`: reads slot `i`; an uninitialized or
out-of-range read (undefined behaviour in the source) is collapsed to `none`. -/
def readSlot (mem : List (Option T)) (i : Nat) : Option T := (mem[i]?).getD none

/-- `Vec::new()`: `ptr` dangling, `cap = 0`, `len = 0`. -/
def Vec.new : Vec T := { data := [], len := 0 }

/-- `Vec::grow()`: capacity becomes `1` if `cap == 0`, else `cap * 2`;
`realloc` preserves the old slots, the fresh tail is uninitialized.
(Allocation failure aborts the process and is out of scope.) -/
def Vec.grow (v : Vec T) : Vec T :=
  let newCap := if v.cap = 0 then 1 else v.cap * 2
  { data := v.data ++ List.replicate (newCap - v.cap) none, len := v.len }

/-- `Vec::push(elem)`: grow when `len == cap`, `ptr::write` at index `len`,
then `len += 1`. -/
def Vec.push (v : Vec T) (elem : T) : Vec T :=
  let w := if v.len = v.cap then v.grow else v
  { data := w.data.set w.len (some elem), len := w.len + 1 }

/-- `Vec::pop()`: `None` when `len == 0`, else `len -= 1` and `ptr::read`
of the slot at the new `len`. -/
def Vec.pop (v : Vec T) : Option T × Vec T :=
  if v.len = 0 then (none, v)
  else (readSlot v.data (v.len - 1), { data := v.data, len := v.len - 1 })

/-- `ptr::copy(src, dst, count)` (memmove): the `count` slots starting at
`dst` are replaced by the `count` slots that were at `src`. -/
def memCopy (mem : List (Option T)) (src dst count : Nat) : List (Option T) :=
  mem.take dst ++ (mem.drop src).take count ++ mem.drop (dst + count)

/-- `Vec::insert(index, elem)`: asserts `index <= len` with message
"index out of bounds" (the state is untouched on failure, the assert runs
first); grows when `cap == len`; `ptr::copy` shifts `[index, len)` to
`[index+1, len+1)`; writes `elem` at `index`; `len += 1`. -/
def Vec.insert (v : Vec T) (index : Nat) (elem : T) : Except String Unit × Vec T :=
  if index ≤ v.len then
    let w := if v.cap = v.len then v.grow else v
    let shifted := memCopy w.data index (index + 1) (w.len - index)
    (Except.ok (), { data := shifted.set index (some elem), len := w.len + 1 })
  else (Except.error "index out of bounds", v)

/-- `Vec::remove(index)`: asserts `index < len` with message
"index out of bounds" (state untouched on failure); `len -= 1`; reads out
slot `index`; `ptr::copy` shifts `[index+1, old len)` one slot left;
returns the value read. -/
def Vec.remove (v : Vec T) (index : Nat) : Except String (Option T) × Vec T :=
  if index < v.len then
    let newLen := v.len - 1
    let result := readSlot v.data index
    let shifted := memCopy v.data (index + 1) index (newLen - index)
    (Except.ok result, { data := shifted, len := newLen })
  else (Except.error "index out of bounds", v)

/-- The `Deref` view `slice::from_raw_parts(ptr, len)`: the live prefix. -/
def Vec.live (v : Vec T) : List T := (v.data.take v.len).filterMap id

/-- Well-formedness: `v` represents the value list `l` — `len` slots are
allocated and the leading `len` of them are initialized to `l`. -/
def Vec.reps (v : Vec T) (l : List T) : Prop :=
  l.length = v.len ∧ v.len ≤ v.data.length ∧ v.data.take v.len = l.map some

instance (v : Vec T) (l : List T) [DecidableEq T] : Decidable (v.reps l) :=
  inferInstanceAs (Decidable (l.length = v.len ∧ v.len ≤ v.data.length ∧
    v.data.take v.len = l.map some))

/-- The `while self.pop().is_some() {}` loop of `impl Drop for Vec`,
collecting the dropped values in order; `len` strictly decreases at each
popped element, so `len` itself is enough fuel. -/
def Vec.dropLoopFuel : Nat → Vec T → List T
  | 0, _ => []
  | fuel + 1, v =>
    match v.pop with
    | (none, _) => []
    | (some x, v') => x :: Vec.dropLoopFuel fuel v'

/-- `impl Drop for Vec`: when `cap != 0`, pop every value (dropping each)
then `dealloc` the region; when `cap == 0`, do nothing.  Returns the
dropped values in drop order and whether the allocation was released. -/
def Vec.dropRun (v : Vec T) : List T × Bool :=
  if v.cap ≠ 0 then (Vec.dropLoopFuel v.len v, true) else ([], false)

/-- Modelled from the spec: no consuming iterator for the buffer exists
under `src/` (the spec's "Iteration-by-value" bullet has no implementation
there), so it is modelled from the spec's words: the iterator holds the
not-yet-yielded live elements in index order together with ownership of
the backing allocation; `next` yields the front element; the iterator's
own teardown destroys the not-yet-yielded elements and deallocates the
region it owns. -/
structure IntoIter (T : Type) where
  remaining : List T
  ownsAlloc : Bool
deriving DecidableEq

/-- Modelled from the spec: consuming a buffer takes its live elements in
index order and ownership of its allocation (present exactly when
`cap > 0`). -/
def Vec.intoIter (v : Vec T) : IntoIter T :=
  { remaining := v.live, ownsAlloc := v.cap != 0 }

/-- Modelled from the spec: yield the next not-yet-yielded element. -/
def IntoIter.next (it : IntoIter T) : Option T × IntoIter T :=
  match it.remaining with
  | [] => (none, it)
  | x :: rest => (some x, { it with remaining := rest })

/-- Advance the iterator `k` times, discarding the yielded values. -/
def IntoIter.stepN : Nat → IntoIter T → IntoIter T
  | 0, it => it
  | k + 1, it => IntoIter.stepN k (it.next).2

/-- Run the iterator to exhaustion (with fuel), collecting every yielded
value in order. -/
def IntoIter.exhaust : Nat → IntoIter T → List T × IntoIter T
  | 0, it => ([], it)
  | fuel + 1, it =>
    match it.next with
    | (none, it') => ([], it')
    | (some x, it') =>
      let r := IntoIter.exhaust fuel it'
      (x :: r.1, r.2)

/-- Modelled from the spec: the iterator's teardown destroys the
not-yet-yielded elements (returned in order) and releases the allocation
exactly when it owns one. -/
def IntoIter.teardown (it : IntoIter T) : List T × Bool :=
  (it.remaining, it.ownsAlloc)

/-- `RefState` from `src/cell.rs`: `Unshared`, `Exclusive`, or `Shared(n)`. -/
inductive RefState where
  | Unshared
  | Exclusive
  | Shared (n : Nat)
deriving DecidableEq

/-- State transition of `RefCell::try_borrow`: `some s` means a `Ref`
token is granted and the state becomes `s`; `none` means no token. -/
def tryBorrowState : RefState → Option RefState
  | .Unshared => some (.Shared 1)
  | .Exclusive => none
  | .Shared count => some (.Shared (count + 1))

/-- State transition of `RefCell::try_borrow_mut`: grants a `RefMut` token
only from `Unshared`. -/
def tryBorrowMutState : RefState → Option RefState
  | .Unshared => some .Exclusive
  | _ => none

/-- State transition of `impl Drop for Ref`: `Unshared`/`Exclusive` hit
`unreachable!()` (modelled as `none`); the `Shared(1)` arm returns to
`Unshared`; the remaining `Shared(count)` arm decrements (written as an
`if` on the count, which is what the two `Shared` match arms compute). -/
def refDropState : RefState → Option RefState
  | .Unshared => none
  | .Exclusive => none
  | .Shared count =>
    if count = 1 then some .Unshared else some (.Shared (count - 1))

/-- State transition of `impl Drop for RefMut`: unconditionally resets the
state to `Unshared`. -/
def refMutDropState : RefState → RefState := fun _ => .Unshared

/-- A `RefCell` together with the number of live `Ref` and `RefMut`
tokens currently handed out. -/
structure CellConfig where
  state : RefState
  reads : Nat
  writes : Nat
deriving DecidableEq

/-- The operations a client can perform: request a borrow, or let a live
token go out of scope. -/
inductive CellOp where
  | tryBorrow
  | tryBorrowMut
  | dropRead
  | dropWrite
deriving DecidableEq

/-- One step of the borrow protocol.  `none` marks an impossible run: the
client cannot drop a token it does not hold, and a `Ref` drop that hits
the `unreachable!()` arms would be a panic. -/
def cellStep (c : CellConfig) : CellOp → Option CellConfig
  | .tryBorrow =>
    match tryBorrowState c.state with
    | some s => some ⟨s, c.reads + 1, c.writes⟩
    | none => some c
  | .tryBorrowMut =>
    match tryBorrowMutState c.state with
    | some s => some ⟨s, c.reads, c.writes + 1⟩
    | none => some c
  | .dropRead =>
    if c.reads = 0 then none
    else
      match refDropState c.state with
      | some s => some ⟨s, c.reads - 1, c.writes⟩
      | none => none
  | .dropWrite =>
    if c.writes = 0 then none
    else some ⟨refMutDropState c.state, c.reads, c.writes - 1⟩

def cellRun (c : CellConfig) : List CellOp → Option CellConfig
  | [] => some c
  | op :: ops =>
    match cellStep c op with
    | some c' => cellRun c' ops
    | none => none

/-- `RefCell::new` starts `Unshared` with no tokens handed out. -/
def cellInit : CellConfig := ⟨.Unshared, 0, 0⟩

/-- The borrow-tracking invariant: the state is exactly the token census. -/
def CellInv (c : CellConfig) : Prop :=
  match c.state with
  | .Unshared => c.reads = 0 ∧ c.writes = 0
  | .Exclusive => c.reads = 0 ∧ c.writes = 1
  | .Shared n => c.reads = n ∧ 0 < n ∧ c.writes = 0

/-- `usize::MAX`: the counts in `src/rc.rs` are `usize` values. -/
def usizeMax : Nat := 2 ^ 64 - 1

/-- `usize::checked_add(1)`: `none` exactly on overflow. -/
def checkedAdd1 (count : Nat) : Option Nat :=
  if count + 1 ≤ usizeMax then some (count + 1) else none

/-- `usize::checked_sub(1)`: `none` exactly on underflow. -/
def checkedSub1 (count : Nat) : Option Nat :=
  if 1 ≤ count then some (count - 1) else none

/-- `RcInner::increment`: `checked_add(1)`, panicking with
"Rc count overflown" when the count would overflow. -/
def rcIncrement (count : Nat) : Except String Nat :=
  match checkedAdd1 count with
  | some c => Except.ok c
  | none => Except.error "Rc count overflown"

/-- `RcInner::decrement`: `checked_sub(1)`, panicking on underflow (the
panic message in the source is also "Rc count overflown"). -/
def rcDecrement (count : Nat) : Except String Nat :=
  match checkedSub1 count with
  | some c => Except.ok c
  | none => Except.error "Rc count overflown"

/-- `RcInner::new` sets `refcount` to 1. -/
def rcNewCount : Nat := 1

/-- `k` successive `Clone::clone` calls on handles of one block: each one
increments the shared count. -/
def rcCloneN : Nat → Nat → Except String Nat
  | 0, count => Except.ok count
  | k + 1, count =>
    match rcIncrement count with
    | Except.ok c => rcCloneN k c
    | Except.error e => Except.error e

/-- `k` successive handle destructions, tracking only the count. -/
def rcDecN : Nat → Nat → Except String Nat
  | 0, count => Except.ok count
  | k + 1, count =>
    match rcDecrement count with
    | Except.ok c => rcDecN k c
    | Except.error e => Except.error e

/-- `impl Drop for Rc`: `self.decrement()` then, if `self.count() == 0`,
drop the `Box` (destroy the value, then deallocate the block).  Returns
the new count and whether the block was freed. -/
def rcHandleDrop (count : Nat) : Except String (Nat × Bool) :=
  match rcDecrement count with
  | Except.ok c => Except.ok (c, c == 0)
  | Except.error e => Except.error e

/-- `j` successive handle destructions, counting the free events. -/
def rcDropN : Nat → Nat → Except String (Nat × Nat)
  | 0, count => Except.ok (count, 0)
  | j + 1, count =>
    match rcHandleDrop count with
    | Except.ok (c, freed) =>
      match rcDropN j c with
      | Except.ok (c', frees) => Except.ok (c', (if freed then 1 else 0) + frees)
      | Except.error e => Except.error e
    | Except.error e => Except.error e

/-- The operations the stack-discipline claim quantifies over. -/
inductive StackOp (T : Type) where
  | push (x : T)
  | pop
deriving DecidableEq

/-- Run a sequence of push/pop operations on a buffer, collecting the
value returned by each `pop` and the final buffer. -/
def Vec.exec : Vec T → List (StackOp T) → List (Option T) × Vec T
  | v, [] => ([], v)
  | v, .push x :: ops => Vec.exec (v.push x) ops
  | v, .pop :: ops =>
      let p := v.pop
      let r := Vec.exec p.2 ops
      (p.1 :: r.1, r.2)

/-- Reference semantics: a plain stack, holding the pushed not-yet-popped
values most-recent first; `pop` returns them in reverse push order. -/
def stackExec : List T → List (StackOp T) → List (Option T) × List T
  | s, [] => ([], s)
  | s, .push x :: ops => stackExec (x :: s) ops
  | s, .pop :: ops =>
      match s with
      | [] => let r := stackExec ([] : List T) ops; (none :: r.1, r.2)
      | x :: s' => let r := stackExec s' ops; (some x :: r.1, r.2)

/-- Program counter of one `Arc` handle inside `Drop::drop`: `start`
(about to run the `fetch_sub`), `decremented` (about to run the separate
re-read `self.count()`), or `done` (recording whether this handle ran the
free, i.e. `Box::from_raw`). -/
inductive ArcPC where
  | start
  | decremented
  | done (freed : Bool)
deriving DecidableEq

/-- The shared control block's atomic count plus the per-handle program
counters of the concurrently dropping handles. -/
structure ArcSys where
  count : Nat
  pcs : List ArcPC
deriving DecidableEq

/-- One atomic step by handle `i` of `impl Drop for Arc`: from `start`,
execute `self.decrement()` — the `fetch_sub(1, AcqRel)`; from
`decremented`, execute the separate load `self.count()` and, when it
observes 0, run the free. -/
def arcStep (s : ArcSys) (i : Nat) : Option ArcSys :=
  match s.pcs[i]? with
  | some ArcPC.start => some ⟨s.count - 1, s.pcs.set i ArcPC.decremented⟩
  | some ArcPC.decremented =>
    some ⟨s.count, s.pcs.set i (ArcPC.done (s.count == 0))⟩
  | some (ArcPC.done _) => none
  | none => none

/-- Run an interleaving (a schedule of handle indices). -/
def arcRun (s : ArcSys) : List Nat → Option ArcSys
  | [] => some s
  | i :: rest =>
    match arcStep s i with
    | some s' => arcRun s' rest
    | none => none

/-- How many of the handles performed the free. -/
def ArcSys.frees (s : ArcSys) : Nat :=
  s.pcs.countP (fun pc => pc == ArcPC.done true)

/-- `Vec<T>` of `src/lib.rs` (the crate root's second copy): the same
`ptr`/`cap`/`len` layout; it implements only `new`, `push`, `pop`, the
`Deref` read view, and `Drop`. -/
structure LVec (T : Type) where
  data : List (Option T)
  len : Nat
deriving DecidableEq

/-- `cap` of the lib.rs vector. -/
def LVec.cap (v : LVec T) : Nat := v.data.length

/-- `Vec::new()` of lib.rs. -/
def LVec.new : LVec T := { data := [], len := 0 }

/-- `Vec::grow()` of lib.rs (same algorithm as vec.rs). -/
def LVec.grow (v : LVec T) : LVec T :=
  let newCap := if v.cap = 0 then 1 else v.cap * 2
  { data := v.data ++ List.replicate (newCap - v.cap) none, len := v.len }

/-- `Vec::push` of lib.rs. -/
def LVec.push (v : LVec T) (elem : T) : LVec T :=
  let w := if v.len = v.cap then v.grow else v
  { data := w.data.set w.len (some elem), len := w.len + 1 }

/-- `Vec::pop` of lib.rs. -/
def LVec.pop (v : LVec T) : Option T × LVec T :=
  if v.len = 0 then (none, v)
  else (readSlot v.data (v.len - 1), { data := v.data, len := v.len - 1 })

/-- The `Deref` read view of lib.rs. -/
def LVec.live (v : LVec T) : List T := (v.data.take v.len).filterMap id

/-- The pop loop of lib.rs's `Drop` (same as vec.rs's). -/
def LVec.dropLoopFuel : Nat → LVec T → List T
  | 0, _ => []
  | fuel + 1, v =>
    match v.pop with
    | (none, _) => []
    | (some x, v') => x :: LVec.dropLoopFuel fuel v'

/-- `impl Drop for Vec` of lib.rs. -/
def LVec.dropRun (v : LVec T) : List T × Bool :=
  if v.cap ≠ 0 then (LVec.dropLoopFuel v.len v, true) else ([], false)

/-- Run a sequence of push/pop operations on the lib.rs vector. -/
def LVec.exec : LVec T → List (StackOp T) → List (Option T) × LVec T
  | v, [] => ([], v)
  | v, .push x :: ops => LVec.exec (v.push x) ops
  | v, .pop :: ops =>
      let p := v.pop
      let r := LVec.exec p.2 ops
      (p.1 :: r.1, r.2)

/-- The field-for-field correspondence between the two `Vec` types. -/
def LVec.toVec (v : LVec T) : Vec T := ⟨v.data, v.len⟩

theorem Vec.new_reps : (Vec.new : Vec T).reps [] := by
  simp [Vec.new, Vec.reps]

theorem Vec.grow_len (v : Vec T) : v.grow.len = v.len := rfl

theorem Vec.cap_le_grow_cap (v : Vec T) : v.cap < v.grow.cap := by
  simp only [Vec.grow, Vec.cap, List.length_append, List.length_replicate]
  split <;> omega

theorem Vec.grow_reps (v : Vec T) (l : List T) (h : v.reps l) : v.grow.reps l := by
  obtain ⟨hlen, hle, htake⟩ := h
  refine ⟨hlen, ?_, ?_⟩
  · simp only [Vec.grow]
    simp only [List.length_append]
    omega
  · simp only [Vec.grow]
    rw [List.take_append_of_le_length hle]
    exact htake

theorem Vec.reps_len_le_cap (v : Vec T) (l : List T) (h : v.reps l) :
    v.len ≤ v.cap := h.2.1

theorem Vec.set_len_reps (w : Vec T) (l : List T) (x : T) (hw : w.reps l)
    (hlt : w.len < w.data.length) :
    (Vec.mk (w.data.set w.len (some x)) (w.len + 1)).reps (l ++ [x]) := by
  obtain ⟨hlen, hle, htake⟩ := hw
  refine ⟨by simp [hlen], by simp; omega, ?_⟩
  rw [List.set_eq_take_append_cons_drop, if_pos hlt]
  rw [List.take_append_eq_append_take, List.take_take]
  have h1 : min (w.len + 1) w.len = w.len := by omega
  have h2 : (List.take w.len w.data).length = w.len := by
    rw [List.length_take]; omega
  rw [h1, h2]
  have h3 : w.len + 1 - w.len = 1 := by omega
  rw [h3, htake]
  simp

theorem Vec.push_reps (v : Vec T) (l : List T) (x : T) (h : v.reps l) :
    (v.push x).reps (l ++ [x]) := by
  unfold Vec.push
  by_cases hc : v.len = v.cap
  · rw [if_pos hc]
    refine Vec.set_len_reps _ _ _ (v.grow_reps l h) ?_
    have := v.cap_le_grow_cap
    have := v.grow_len
    simp only [Vec.cap] at *
    omega
  · rw [if_neg hc]
    refine Vec.set_len_reps _ _ _ h ?_
    have := v.reps_len_le_cap l h
    simp only [Vec.cap] at *
    omega

theorem Vec.pop_empty (v : Vec T) (h : v.len = 0) : v.pop = (none, v) := by
  simp [Vec.pop, h]

theorem Vec.pop_reps (v : Vec T) (l : List T) (x : T) (h : v.reps (l ++ [x])) :
    v.pop = (some x, Vec.mk v.data (v.len - 1))
      ∧ (Vec.mk v.data (v.len - 1)).reps l := by
  obtain ⟨hlen, hle, htake⟩ := h
  simp only [List.length_append, List.length_cons, List.length_nil] at hlen
  have hpos : 0 < v.len := by omega
  have hll : l.length = v.len - 1 := by omega
  have hread : readSlot v.data (v.len - 1) = some x := by
    unfold readSlot
    have h1 : (List.take v.len v.data)[v.len - 1]? = v.data[v.len - 1]? := by
      rw [List.getElem?_take, if_pos (by omega)]
    rw [← h1, htake, ← hll]
    have := List.getElem?_concat_length (l.map some) (some x)
    simp only [List.map_append, List.map_cons, List.map_nil] at *
    rw [List.length_map] at this
    rw [this]
    rfl
  constructor
  · unfold Vec.pop
    rw [if_neg (by omega), hread]
  · refine ⟨by show l.length = v.len - 1; omega,
      by show v.len - 1 ≤ v.data.length; omega, ?_⟩
    have h2 : List.take (v.len - 1) v.data
        = List.take (v.len - 1) (List.take v.len v.data) := by
      rw [List.take_take]
      congr 1
      omega
    rw [h2, htake, ← List.map_take]
    congr 1
    rw [← hll, List.take_left]

theorem readSlot_reps (v : Vec T) (l : List T) (i : Nat) (h : v.reps l)
    (hi : i < v.len) : readSlot v.data i = l[i]? := by
  obtain ⟨hlen, hle, htake⟩ := h
  unfold readSlot
  have h1 : (List.take v.len v.data)[i]? = v.data[i]? := by
    rw [List.getElem?_take, if_pos hi]
  rw [← h1, htake, List.getElem?_map]
  obtain ⟨e, he⟩ : ∃ e, l[i]? = some e :=
    ⟨l.get ⟨i, by omega⟩, List.getElem?_eq_getElem (by omega)⟩
  rw [he]
  rfl

theorem take_succ_set (d : List α) (i : Nat) (x : α) (hi : i < d.length) :
    (List.take (i + 1) d).set i x = List.take i d ++ [x] := by
  obtain ⟨e, he⟩ : ∃ e, d[i]? = some e :=
    ⟨d[i], List.getElem?_eq_getElem hi⟩
  rw [List.take_succ, he]
  rw [List.set_append, List.length_take]
  rw [if_neg (by omega)]
  have h0 : i - (i ⊓ d.length) = 0 := by omega
  rw [h0]
  rfl

theorem take_prefix_map (d : List (Option T)) (l : List T) (i L : Nat)
    (htake : List.take L d = l.map some) (hi : i ≤ L) :
    List.take i d = (l.take i).map some := by
  have h : List.take i d = List.take i (List.take L d) := by
    rw [List.take_take]
    congr 1
    omega
  rw [h, htake, ← List.map_take]

theorem drop_take_map (d : List (Option T)) (l : List T) (i L : Nat)
    (htake : List.take L d = l.map some) (hi : i ≤ L) :
    (d.drop i).take (L - i) = (l.drop i).map some := by
  rw [List.take_drop]
  have h : i + (L - i) = L := by omega
  rw [h, htake, ← List.map_drop]

theorem Vec.insert_data_eq (w : Vec T) (l : List T) (i : Nat) (x : T)
    (hw : w.reps l) (hlt : w.len < w.data.length) (hi : i ≤ w.len) :
    (memCopy w.data i (i + 1) (w.len - i)).set i (some x)
      = ((l.take i ++ x :: l.drop i).map some) ++ w.data.drop (w.len + 1) := by
  obtain ⟨hlen, hle, htake⟩ := hw
  unfold memCopy
  have hidx : i + 1 + (w.len - i) = w.len + 1 := by omega
  rw [hidx]
  rw [List.append_assoc]
  rw [List.set_append, List.length_take]
  rw [if_pos (by omega)]
  rw [take_succ_set w.data i (some x) (by omega)]
  rw [drop_take_map w.data l i w.len htake hi]
  rw [take_prefix_map w.data l i w.len htake hi]
  simp [List.map_append]

theorem Vec.insert_reps_aux (w : Vec T) (l : List T) (i : Nat) (x : T)
    (hw : w.reps l) (hlt : w.len < w.data.length) (hi : i ≤ w.len) :
    (Vec.mk ((memCopy w.data i (i + 1) (w.len - i)).set i (some x)) (w.len + 1)).reps
      (l.take i ++ x :: l.drop i) := by
  have hdata := Vec.insert_data_eq w l i x hw hlt hi
  obtain ⟨hlen, hle, htake⟩ := hw
  have hPlen : ((l.take i ++ x :: l.drop i).map some).length = w.len + 1 := by
    simp only [List.length_map, List.length_append, List.length_cons,
      List.length_take, List.length_drop]
    omega
  refine ⟨?_, ?_, ?_⟩
  · show (l.take i ++ x :: l.drop i).length = w.len + 1
    simpa using hPlen
  · show w.len + 1 ≤ _
    rw [hdata]
    simp only [List.length_append, List.length_drop, hPlen]
    omega
  · show List.take (w.len + 1) _ = _
    rw [hdata]
    rw [List.take_append_of_le_length (le_of_eq hPlen.symm)]
    exact List.take_of_length_le (le_of_eq hPlen)

theorem Vec.insert_ok (v : Vec T) (l : List T) (i : Nat) (x : T) (h : v.reps l)
    (hi : i ≤ v.len) :
    (v.insert i x).1 = Except.ok ()
    ∧ (v.insert i x).2.reps (l.take i ++ x :: l.drop i)
    ∧ (v.insert i x).2.len = v.len + 1 := by
  have hmain : ∀ w : Vec T, w.reps l → w.len = v.len → w.len < w.data.length →
      (Vec.mk ((memCopy w.data i (i + 1) (w.len - i)).set i (some x)) (w.len + 1)).reps
        (l.take i ++ x :: l.drop i) := by
    intro w hw hwl hlt
    exact Vec.insert_reps_aux w l i x hw hlt (hwl ▸ hi)
  simp only [Vec.insert, if_pos hi]
  by_cases hc : v.cap = v.len
  · rw [if_pos hc]
    refine ⟨trivial, ?_, ?_⟩
    · exact hmain v.grow (v.grow_reps l h) (v.grow_len)
        (by
          have h1 := v.cap_le_grow_cap
          have h2 := v.grow_len
          simp only [Vec.cap] at h1 hc
          omega)
    · show v.grow.len + 1 = v.len + 1
      rw [v.grow_len]
  · rw [if_neg hc]
    refine ⟨trivial, ?_, rfl⟩
    exact hmain v h rfl
      (by
        have h1 := v.reps_len_le_cap l h
        simp only [Vec.cap] at h1 hc
        omega)

theorem Vec.insert_oob (v : Vec T) (i : Nat) (x : T) (hi : v.len < i) :
    v.insert i x = (Except.error "index out of bounds", v) := by
  simp only [Vec.insert, if_neg (by omega : ¬ i ≤ v.len)]

/-- Claim C2: for a well-formed buffer holding `l` and any `i ≤ len`,
`insert(i, x)` succeeds, stores `x` at index `i`, moves the elements
previously at `[i, len)` to `[i+1, len+1)` preserving order, and grows
`len` by one; for `i > len` it fails with "index out of bounds". -/
theorem C2_insert_correct (T : Type) (v : Vec T) (l : List T) (i : Nat) (x : T)
    (h : v.reps l) :
    (i ≤ v.len →
      (v.insert i x).1 = Except.ok ()
      ∧ (v.insert i x).2.reps (l.take i ++ x :: l.drop i)
      ∧ (v.insert i x).2.len = v.len + 1
      ∧ (l.take i ++ x :: l.drop i)[i]? = some x
      ∧ (∀ j, i ≤ j → j < v.len → (l.take i ++ x :: l.drop i)[j + 1]? = l[j]?))
    ∧ (v.len < i → v.insert i x = (Except.error "index out of bounds", v)) := by
  constructor
  · intro hi
    have hlen : l.length = v.len := h.1
    obtain ⟨h1, h2, h3⟩ := Vec.insert_ok v l i x h hi
    have htl : (l.take i).length = i := by
      rw [List.length_take]
      omega
    refine ⟨h1, h2, h3, ?_, ?_⟩
    · rw [List.getElem?_append, htl]
      simp
    · intro j hij hjl
      rw [List.getElem?_append, htl]
      rw [if_neg (by omega)]
      have hj1 : j + 1 - i = (j - i) + 1 := by omega
      rw [hj1, List.getElem?_cons_succ]
      rw [List.getElem?_drop]
      congr 1
      omega
  · intro hi
    exact Vec.insert_oob v i x hi

/-- Witness for C2: inserting 99 at index 1 of a full two-element buffer. -/
theorem C2_witness :
    ((Vec.mk [some 10, some 20] 2 : Vec Nat).reps [10, 20] ∧ 1 ≤ 2)
    ∧ ((Vec.mk [some 10, some 20] 2 : Vec Nat).insert 1 99).2.reps [10, 99, 20] := by
  have h := (C2_insert_correct Nat (Vec.mk [some 10, some 20] 2) [10, 20] 1 99
    (by decide)).1 (by decide)
  exact ⟨⟨by decide, by decide⟩, h.2.1⟩

theorem Vec.remove_data_eq (v : Vec T) (l : List T) (i : Nat)
    (hw : v.reps l) (hi : i < v.len) :
    memCopy v.data (i + 1) i (v.len - 1 - i)
      = ((l.take i ++ l.drop (i + 1)).map some) ++ v.data.drop (v.len - 1) := by
  obtain ⟨hlen, hle, htake⟩ := hw
  unfold memCopy
  have hidx : i + (v.len - 1 - i) = v.len - 1 := by omega
  rw [hidx]
  rw [take_prefix_map v.data l i v.len htake (by omega)]
  have hB : (v.data.drop (i + 1)).take (v.len - 1 - i) = (l.drop (i + 1)).map some := by
    have h1 : v.len - 1 - i = v.len - (i + 1) := by omega
    rw [h1]
    exact drop_take_map v.data l (i + 1) v.len htake (by omega)
  rw [hB]
  simp [List.map_append]

theorem Vec.remove_ok (v : Vec T) (l : List T) (i : Nat) (h : v.reps l)
    (hi : i < v.len) :
    (v.remove i).1 = Except.ok l[i]?
    ∧ (v.remove i).2.reps (l.take i ++ l.drop (i + 1))
    ∧ (v.remove i).2.len = v.len - 1 := by
  have hdata := Vec.remove_data_eq v l i h hi
  have hread := readSlot_reps v l i h hi
  obtain ⟨hlen, hle, htake⟩ := h
  have hPlen : ((l.take i ++ l.drop (i + 1)).map some).length = v.len - 1 := by
    simp only [List.length_map, List.length_append, List.length_take,
      List.length_drop]
    omega
  simp only [Vec.remove, if_pos hi]
  refine ⟨by rw [hread], ⟨?_, ?_, ?_⟩, by trivial⟩
  · show (l.take i ++ l.drop (i + 1)).length = v.len - 1
    simpa using hPlen
  · show v.len - 1 ≤ _
    rw [hdata]
    simp only [List.length_append, List.length_drop, hPlen]
    omega
  · show List.take (v.len - 1) _ = _
    rw [hdata]
    rw [List.take_append_of_le_length (le_of_eq hPlen.symm)]
    exact List.take_of_length_le (le_of_eq hPlen)

theorem Vec.remove_oob (v : Vec T) (i : Nat) (hi : v.len ≤ i) :
    v.remove i = (Except.error "index out of bounds", v) := by
  simp only [Vec.remove, if_neg (by omega : ¬ i < v.len)]

/-- Claim C3: for a well-formed buffer holding `l` and any `i < len`,
`remove(i)` returns the value previously at index `i`, shifts the elements
previously at `[i+1, len)` left by one, and shrinks `len` by one; for
`i >= len` it fails with "index out of bounds" leaving contents and length
unchanged. -/
theorem C3_remove_correct (T : Type) (v : Vec T) (l : List T) (i : Nat)
    (h : v.reps l) :
    (i < v.len →
      (v.remove i).1 = Except.ok l[i]?
      ∧ (v.remove i).2.reps (l.take i ++ l.drop (i + 1))
      ∧ (v.remove i).2.len = v.len - 1
      ∧ (∀ j, i ≤ j → j + 1 < v.len → (l.take i ++ l.drop (i + 1))[j]? = l[j + 1]?))
    ∧ (v.len ≤ i → v.remove i = (Except.error "index out of bounds", v)) := by
  constructor
  · intro hi
    have hlen : l.length = v.len := h.1
    obtain ⟨h1, h2, h3⟩ := Vec.remove_ok v l i h hi
    have htl : (l.take i).length = i := by
      rw [List.length_take]
      omega
    refine ⟨h1, h2, h3, ?_⟩
    intro j hij hjl
    rw [List.getElem?_append, htl]
    rw [if_neg (by omega)]
    rw [List.getElem?_drop]
    congr 1
    omega
  · intro hi
    exact Vec.remove_oob v i hi

/-- Witness for C3: removing index 1 from a three-element buffer. -/
theorem C3_witness :
    ((Vec.mk [some 10, some 20, some 30] 3 : Vec Nat).reps [10, 20, 30] ∧ 1 < 3)
    ∧ ((Vec.mk [some 10, some 20, some 30] 3 : Vec Nat).remove 1).1
        = Except.ok (some 20)
    ∧ ((Vec.mk [some 10, some 20, some 30] 3 : Vec Nat).remove 1).2.reps [10, 30] := by
  have h := (C3_remove_correct Nat (Vec.mk [some 10, some 20, some 30] 3)
    [10, 20, 30] 1 (by decide)).1 (by decide)
  exact ⟨⟨by decide, by decide⟩, h.1, h.2.1⟩

theorem Vec.dropLoopFuel_reps (l : List T) (v : Vec T) (h : v.reps l) :
    Vec.dropLoopFuel v.len v = l.reverse := by
  induction l using List.reverseRecOn generalizing v with
  | nil =>
    have hz : v.len = 0 := by
      have := h.1
      simpa using this.symm
    rw [hz]
    rfl
  | append_singleton l' x ih =>
    obtain ⟨hpop, hreps⟩ := v.pop_reps l' x h
    have hlen : v.len = l'.length + 1 := by
      have := h.1
      simpa using this.symm
    have hstep := ih (Vec.mk v.data (v.len - 1)) hreps
    have hlen' : (Vec.mk v.data (v.len - 1)).len = l'.length := by
      show v.len - 1 = l'.length
      omega
    rw [hlen'] at hstep
    rw [hlen]
    simp only [Vec.dropLoopFuel, hpop, hstep]
    simp

/-- Claim C4 as stated is false: destruction pops from the back, so the
value at index `len-1` is dropped first, not the value at index 0.  The
buffer `[1, 2]` is dropped as `[2, 1]`, not `[1, 2]`. -/
theorem C4_counterexample :
    (Vec.mk [some 1, some 2] 2 : Vec Nat).reps [1, 2]
    ∧ (Vec.mk [some 1, some 2] 2 : Vec Nat).dropRun = ([2, 1], true)
    ∧ ([2, 1] : List Nat) ≠ [1, 2] := by decide

/-- Claim C4 (amended): when a buffer holding `len` live values is
destroyed, it drops all of them in reverse index order — the value at
index `len-1` first, the value at index 0 last — and then releases the
backing allocation exactly when `cap > 0`. -/
theorem C4_drop_reverse_order (T : Type) (v : Vec T) (l : List T)
    (h : v.reps l) :
    (v.dropRun).1 = l.reverse ∧ ((v.dropRun).2 = true ↔ 0 < v.cap) := by
  unfold Vec.dropRun
  by_cases hc : v.cap ≠ 0
  · rw [if_pos hc]
    refine ⟨Vec.dropLoopFuel_reps l v h, ?_⟩
    show true = true ↔ 0 < v.cap
    constructor
    · intro _
      omega
    · intro _
      rfl
  · rw [if_neg hc]
    push_neg at hc
    have hz : l = [] := by
      have h1 := h.1
      have h2 := h.2.1
      simp only [Vec.cap] at hc
      have h3 : l.length = 0 := by omega
      exact List.eq_nil_of_length_eq_zero h3
    subst hz
    refine ⟨rfl, ?_⟩
    show false = true ↔ 0 < v.cap
    constructor
    · intro h'
      exact absurd h' (by simp)
    · intro h'
      exact absurd h' (by omega)

/-- Witness for C4 (amended): a one-element buffer drops `[5]` and releases
its allocation. -/
theorem C4_witness :
    (Vec.mk [some 5] 1 : Vec Nat).reps [5]
    ∧ (Vec.mk [some 5] 1 : Vec Nat).dropRun.1 = [5]
    ∧ ((Vec.mk [some 5] 1 : Vec Nat).dropRun.2 = true ↔ 0 < (Vec.mk [some 5] 1 : Vec Nat).cap) := by
  have h := C4_drop_reverse_order Nat (Vec.mk [some 5] 1) [5] (by decide)
  exact ⟨by decide, h.1, h.2⟩

theorem Vec.live_reps (v : Vec T) (l : List T) (h : v.reps l) : v.live = l := by
  unfold Vec.live
  rw [h.2.2, List.filterMap_map]
  simp [Function.comp]

theorem IntoIter.exhaust_all (r : List T) (b : Bool) :
    IntoIter.exhaust r.length ⟨r, b⟩ = (r, ⟨[], b⟩) := by
  induction r with
  | nil => rfl
  | cons x rest ih =>
    show IntoIter.exhaust (rest.length + 1) ⟨x :: rest, b⟩ = _
    simp only [IntoIter.exhaust, IntoIter.next, ih]

theorem IntoIter.stepN_drop (k : Nat) (r : List T) (b : Bool) :
    IntoIter.stepN k ⟨r, b⟩ = ⟨r.drop k, b⟩ := by
  induction k generalizing r with
  | zero => rfl
  | succ k ih =>
    cases r with
    | nil =>
      show IntoIter.stepN k ⟨[], b⟩ = _
      rw [ih []]
      simp
    | cons x rest =>
      show IntoIter.stepN k ⟨rest, b⟩ = _
      rw [ih rest]
      simp

/-- Claim C5: a buffer holding the live values `l` is consumed as an
iterator-by-value that yields exactly the elements of `l`, each once, in
index order; after `k` steps, the iterator's own teardown destroys
precisely the not-yet-yielded elements `l.drop k` and releases the backing
allocation, which it owns exactly when `cap > 0` (so the allocation is
released both on exhaustion and on early drop, and nothing leaks). -/
theorem C5_into_iter (T : Type) (v : Vec T) (l : List T) (h : v.reps l) :
    (v.intoIter).remaining = l
    ∧ IntoIter.exhaust l.length (v.intoIter) = (l, ⟨[], (v.intoIter).ownsAlloc⟩)
    ∧ (∀ k, (IntoIter.stepN k (v.intoIter)).teardown
        = (l.drop k, (v.intoIter).ownsAlloc))
    ∧ ((v.intoIter).ownsAlloc = true ↔ 0 < v.cap) := by
  have hlive := v.live_reps l h
  have hrem : (v.intoIter).remaining = l := hlive
  have hit : v.intoIter = ⟨l, (v.intoIter).ownsAlloc⟩ := by
    show (⟨v.live, _⟩ : IntoIter T) = _
    rw [hlive]
    rfl
  refine ⟨hrem, ?_, ?_, ?_⟩
  · rw [hit]
    exact IntoIter.exhaust_all l _
  · intro k
    rw [hit, IntoIter.stepN_drop]
    rfl
  · show (v.cap != 0) = true ↔ 0 < v.cap
    simp [bne_iff_ne]
    omega

/-- Witness for C5: a two-element buffer yields `[7, 8]` and its teardown
after one step drops `[8]` while still releasing the allocation. -/
theorem C5_witness :
    (Vec.mk [some 7, some 8] 2 : Vec Nat).reps [7, 8]
    ∧ IntoIter.exhaust 2 (Vec.mk [some 7, some 8] 2 : Vec Nat).intoIter
        = ([7, 8], ⟨[], true⟩)
    ∧ (IntoIter.stepN 1 (Vec.mk [some 7, some 8] 2 : Vec Nat).intoIter).teardown
        = ([8], true) := by
  have h := C5_into_iter Nat (Vec.mk [some 7, some 8] 2) [7, 8] (by decide)
  refine ⟨by decide, ?_, ?_⟩
  · have h2 := h.2.1
    simpa using h2
  · have h3 := h.2.2.1 1
    simpa using h3

theorem cellStep_inv (c : CellConfig) (op : CellOp) (c' : CellConfig)
    (h : CellInv c) (hs : cellStep c op = some c') : CellInv c' := by
  obtain ⟨st, r, w⟩ := c
  cases op with
  | tryBorrow =>
    cases st with
    | Unshared =>
      simp only [CellInv] at h
      simp only [cellStep, tryBorrowState, Option.some.injEq] at hs
      subst hs
      simp only [CellInv]
      omega
    | Exclusive =>
      simp only [cellStep, tryBorrowState, Option.some.injEq] at hs
      subst hs
      exact h
    | Shared n =>
      simp only [CellInv] at h
      simp only [cellStep, tryBorrowState, Option.some.injEq] at hs
      subst hs
      simp only [CellInv]
      omega
  | tryBorrowMut =>
    cases st with
    | Unshared =>
      simp only [CellInv] at h
      simp only [cellStep, tryBorrowMutState, Option.some.injEq] at hs
      subst hs
      simp only [CellInv]
      omega
    | Exclusive =>
      simp only [cellStep, tryBorrowMutState, Option.some.injEq] at hs
      subst hs
      exact h
    | Shared n =>
      simp only [cellStep, tryBorrowMutState, Option.some.injEq] at hs
      subst hs
      exact h
  | dropRead =>
    cases st with
    | Unshared =>
      simp only [CellInv] at h
      obtain ⟨hr, hw⟩ := h
      subst hr
      simp [cellStep] at hs
    | Exclusive =>
      simp only [CellInv] at h
      obtain ⟨hr, hw⟩ := h
      subst hr
      simp [cellStep] at hs
    | Shared n =>
      simp only [CellInv] at h
      obtain ⟨hrn, hn, hw⟩ := h
      subst hrn
      by_cases hr1 : r = 1
      · subst hr1
        simp [cellStep, refDropState] at hs
        subst hs
        exact ⟨rfl, hw⟩
      · simp only [cellStep, refDropState, if_neg (show ¬ r = 0 by omega),
          if_neg hr1, Option.some.injEq] at hs
        subst hs
        exact ⟨rfl, show 0 < r - 1 by omega, hw⟩
  | dropWrite =>
    cases st with
    | Unshared =>
      simp only [CellInv] at h
      obtain ⟨hr, hw⟩ := h
      subst hw
      simp [cellStep] at hs
    | Exclusive =>
      simp only [CellInv] at h
      obtain ⟨hr, hw⟩ := h
      simp only [cellStep, refMutDropState,
        if_neg (show ¬ w = 0 by omega), Option.some.injEq] at hs
      subst hs
      simp only [CellInv]
      omega
    | Shared n =>
      simp only [CellInv] at h
      obtain ⟨hrn, hn, hw⟩ := h
      subst hw
      simp [cellStep] at hs

theorem cellRun_inv (ops : List CellOp) (c c' : CellConfig) (h : CellInv c)
    (hr : cellRun c ops = some c') : CellInv c' := by
  induction ops generalizing c with
  | nil =>
    simp only [cellRun, Option.some.injEq] at hr
    subst hr
    exact h
  | cons op ops ih =>
    simp only [cellRun] at hr
    cases hstep : cellStep c op with
    | none =>
      rw [hstep] at hr
      cases hr
    | some c1 =>
      rw [hstep] at hr
      exact ih c1 (cellStep_inv c op c1 h hstep) hr

/-- Claim C6: borrow protocol of the `RefCell`.  `try_borrow` grants a
read token exactly when the state is not `Exclusive` (with the stated
transitions); `try_borrow_mut` grants a write token exactly from
`Unshared`; in every reachable configuration the destruction of a live
read token decrements the shared count (reaching `Unshared` at zero) and
the destruction of a live write token resets the state to `Unshared`; and
no reachable configuration has a live write token together with a live
read token. -/
theorem C6_refcell_protocol :
    (∀ s : RefState, (tryBorrowState s).isSome ↔ s ≠ RefState.Exclusive)
    ∧ tryBorrowState RefState.Unshared = some (RefState.Shared 1)
    ∧ (∀ n, tryBorrowState (RefState.Shared n) = some (RefState.Shared (n + 1)))
    ∧ (∀ s : RefState, (tryBorrowMutState s).isSome ↔ s = RefState.Unshared)
    ∧ tryBorrowMutState RefState.Unshared = some RefState.Exclusive
    ∧ (∀ (ops : List CellOp) (c : CellConfig), cellRun cellInit ops = some c →
        (0 < c.reads → cellStep c CellOp.dropRead
          = some ⟨if c.reads - 1 = 0 then RefState.Unshared
                  else RefState.Shared (c.reads - 1), c.reads - 1, c.writes⟩)
        ∧ (0 < c.writes → cellStep c CellOp.dropWrite
          = some ⟨RefState.Unshared, c.reads, c.writes - 1⟩)
        ∧ ¬(0 < c.reads ∧ 0 < c.writes)) := by
  refine ⟨?_, rfl, fun n => rfl, ?_, rfl, ?_⟩
  · intro s
    cases s <;> simp [tryBorrowState]
  · intro s
    cases s <;> simp [tryBorrowMutState]
  · intro ops c hrun
    have hinv := cellRun_inv ops cellInit c ⟨rfl, rfl⟩ hrun
    obtain ⟨st, r, w⟩ := c
    refine ⟨?_, ?_, ?_⟩
    · intro hr
      dsimp only at hr ⊢
      cases st with
      | Unshared =>
        simp only [CellInv] at hinv
        exact absurd hr (by omega)
      | Exclusive =>
        simp only [CellInv] at hinv
        exact absurd hr (by omega)
      | Shared n =>
        simp only [CellInv] at hinv
        obtain ⟨h1, h2, h3⟩ := hinv
        subst h1
        by_cases hr1 : r = 1
        · subst hr1
          simp [cellStep, refDropState]
        · simp only [cellStep, refDropState, if_neg (show ¬ r = 0 by omega),
            if_neg hr1, if_neg (show ¬ r - 1 = 0 by omega)]
    · intro hw
      dsimp only at hw ⊢
      cases st with
      | Unshared =>
        simp only [CellInv] at hinv
        exact absurd hw (by omega)
      | Exclusive =>
        simp only [CellInv] at hinv
        obtain ⟨h1, h2⟩ := hinv
        subst h1
        subst h2
        simp [cellStep, refMutDropState]
      | Shared n =>
        simp only [CellInv] at hinv
        obtain ⟨h1, h2, h3⟩ := hinv
        exact absurd hw (by omega)
    · intro hboth
      obtain ⟨hr, hw⟩ := hboth
      dsimp only at hr hw
      cases st with
      | Unshared =>
        simp only [CellInv] at hinv
        omega
      | Exclusive =>
        simp only [CellInv] at hinv
        omega
      | Shared n =>
        simp only [CellInv] at hinv
        omega

/-- Witness for C6: after one granted `try_borrow` the configuration is
`Shared(1)` with one live read token and no live write token. -/
theorem C6_witness :
    cellRun cellInit [CellOp.tryBorrow]
      = some ⟨RefState.Shared 1, 1, 0⟩
    ∧ ¬(0 < (CellConfig.mk (RefState.Shared 1) 1 0).reads
        ∧ 0 < (CellConfig.mk (RefState.Shared 1) 1 0).writes) :=
  ⟨by decide,
    (C6_refcell_protocol.2.2.2.2.2 [CellOp.tryBorrow]
      ⟨RefState.Shared 1, 1, 0⟩ (by decide)).2.2⟩

theorem rcCloneN_ok (k count : Nat) (h : count + k ≤ usizeMax) :
    rcCloneN k count = Except.ok (count + k) := by
  induction k generalizing count with
  | zero => rfl
  | succ k ih =>
    have hstep : rcIncrement count = Except.ok (count + 1) := by
      unfold rcIncrement checkedAdd1
      rw [if_pos (by omega)]
    simp only [rcCloneN, hstep]
    rw [ih (count + 1) (by omega)]
    congr 1
    omega

theorem rcDecN_ok (k count : Nat) (h : k ≤ count) :
    rcDecN k count = Except.ok (count - k) := by
  induction k generalizing count with
  | zero => rfl
  | succ k ih =>
    have hstep : rcDecrement count = Except.ok (count - 1) := by
      unfold rcDecrement checkedSub1
      rw [if_pos (by omega)]
    simp only [rcDecN, hstep]
    rw [ih (count - 1) (by omega)]
    congr 1
    omega

/-- Claim C7: starting from `Rc::new` (count 1), `k` clones bring the
block's count—the one observed through every handle—to `k + 1`; dropping
all but one handle (`k` destructions) returns it to 1; and clone panics
("Rc count overflown") when the count would overflow `usize`. -/
theorem C7_rc_clone_counts (k : Nat) (h : 1 + k ≤ usizeMax) :
    rcCloneN k rcNewCount = Except.ok (k + 1)
    ∧ rcDecN k (k + 1) = Except.ok rcNewCount
    ∧ rcIncrement usizeMax = Except.error "Rc count overflown" := by
  refine ⟨?_, ?_, ?_⟩
  · rw [rcCloneN_ok k rcNewCount (by unfold rcNewCount; omega)]
    congr 1
    unfold rcNewCount
    omega
  · rw [rcDecN_ok k (k + 1) (by omega)]
    congr 1
    unfold rcNewCount
    omega
  · unfold rcIncrement checkedAdd1 usizeMax
    rw [if_neg (by decide)]

/-- Witness for C7: three clones of a fresh handle give count 4. -/
theorem C7_witness :
    1 + 3 ≤ usizeMax ∧ rcCloneN 3 rcNewCount = Except.ok 4 :=
  ⟨by decide, (C7_rc_clone_counts 3 (by decide)).1⟩

theorem rcHandleDrop_pos (count : Nat) (h : 0 < count) :
    rcHandleDrop count = Except.ok (count - 1, count == 1) := by
  have hb : (count - 1 == 0) = (count == 1) := by
    rw [Bool.eq_iff_iff]
    simp only [beq_iff_eq]
    omega
  unfold rcHandleDrop rcDecrement checkedSub1
  rw [if_pos (by omega)]
  show Except.ok (count - 1, count - 1 == 0) = _
  rw [hb]

theorem rcDropN_step (j count : Nat) (h2 : 2 ≤ count) :
    rcDropN (j + 1) count = rcDropN j (count - 1) := by
  have hdrop := rcHandleDrop_pos count (by omega)
  have hb : (count == 1) = false := by
    rw [show false = ((1 : Nat) == 2) by rfl, Bool.eq_iff_iff]
    simp only [beq_iff_eq]
    omega
  rw [hb] at hdrop
  show (match rcHandleDrop count with
    | Except.ok (c, freed) =>
      (match rcDropN j c with
        | Except.ok (c', frees) =>
          Except.ok (c', (if freed then 1 else 0) + frees)
        | Except.error e => Except.error e)
    | Except.error e => Except.error e) = _
  rw [hdrop]
  cases hr : rcDropN j (count - 1) with
  | ok p =>
    obtain ⟨c', frees⟩ := p
    simp [hr]
  | error e => simp [hr]

theorem rcDropN_below (j count : Nat) (h : j < count) :
    rcDropN j count = Except.ok (count - j, 0) := by
  induction j generalizing count with
  | zero => rfl
  | succ j ih =>
    rw [rcDropN_step j count (by omega), ih (count - 1) (by omega)]
    have harith : count - 1 - j = count - (j + 1) := by omega
    rw [harith]

theorem rcDropN_all (count : Nat) (h : 0 < count) :
    rcDropN count count = Except.ok (0, 1) := by
  induction count with
  | zero => exact absurd h (by omega)
  | succ n ih =>
    cases n with
    | zero => rfl
    | succ m =>
      rw [rcDropN_step (m + 1) (m + 2) (by omega)]
      have hm : m + 2 - 1 = m + 1 := rfl
      rw [hm]
      exact ih (by omega)

theorem rcDropN_underflow (count : Nat) :
    rcDropN (count + 1) count = Except.error "Rc count overflown" := by
  induction count with
  | zero => rfl
  | succ n ih =>
    cases n with
    | zero => rfl
    | succ m =>
      rw [rcDropN_step (m + 2) (m + 2) (by omega)]
      have hm : m + 2 - 1 = m + 1 := rfl
      rw [hm]
      exact ih

/-- Claim C8: every `Rc` handle destruction decrements the block's count
by exactly one (panicking on underflow, i.e. double-free protection), and
the value destruction plus block deallocation happen exactly once — at
the destruction taking the count from 1 to 0, never while the count is
still positive (fewer drops than owners free nothing) and never twice
(one more drop than owners hits the underflow panic, not a second free). -/
theorem C8_rc_drop_protocol (count j : Nat) (h : 0 < count) :
    rcHandleDrop count = Except.ok (count - 1, count == 1)
    ∧ rcHandleDrop 0 = Except.error "Rc count overflown"
    ∧ (j < count → rcDropN j count = Except.ok (count - j, 0))
    ∧ rcDropN count count = Except.ok (0, 1)
    ∧ rcDropN (count + 1) count = Except.error "Rc count overflown" :=
  ⟨rcHandleDrop_pos count h, rfl,
    fun hj => rcDropN_below j count hj,
    rcDropN_all count h,
    rcDropN_underflow count⟩

/-- Witness for C8: three owners, dropped twice, once more, then once too
often. -/
theorem C8_witness :
    (0 < 3 ∧ 2 < 3)
    ∧ rcDropN 2 3 = Except.ok (1, 0)
    ∧ rcDropN 3 3 = Except.ok (0, 1)
    ∧ rcDropN 4 3 = Except.error "Rc count overflown" := by
  have h := C8_rc_drop_protocol 3 2 (by decide)
  exact ⟨⟨by decide, by decide⟩, h.2.2.1 (by decide), h.2.2.2.1, h.2.2.2.2⟩

theorem Vec.exec_sim (ops : List (StackOp T)) (v : Vec T) (s : List T)
    (h : v.reps s.reverse) :
    (Vec.exec v ops).1 = (stackExec s ops).1
      ∧ (Vec.exec v ops).2.reps ((stackExec s ops).2.reverse) := by
  induction ops generalizing v s with
  | nil => exact ⟨rfl, h⟩
  | cons op ops ih =>
    cases op with
    | push x =>
      have hp : (v.push x).reps ((x :: s).reverse) := by
        rw [List.reverse_cons]
        exact v.push_reps s.reverse x h
      simpa [Vec.exec, stackExec] using ih (v.push x) (x :: s) hp
    | pop =>
      cases s with
      | nil =>
        have hz : v.len = 0 := by
          have := h.1
          simpa using this.symm
        have hpop := v.pop_empty hz
        have := ih v [] h
        simp only [Vec.exec, stackExec, hpop]
        exact ⟨by rw [this.1], this.2⟩
      | cons x s' =>
        have h' : v.reps (s'.reverse ++ [x]) := by
          simpa [List.reverse_cons] using h
        obtain ⟨hpop, hreps⟩ := v.pop_reps s'.reverse x h'
        have := ih (Vec.mk v.data (v.len - 1)) s' hreps
        simp only [Vec.exec, stackExec, hpop]
        exact ⟨by rw [this.1], this.2⟩

/-- Claim C1: for every sequence of push/pop operations starting from
`Vec::new()`, the values returned by `pop` are the pushed not-yet-popped
values in reverse push order (the reference stack semantics); `pop` on an
empty buffer returns `None` and leaves the buffer unchanged; and the
concrete scenario `push(1); push(2); pop()=Some(2); pop()=Some(1);
pop()=None` holds. -/
theorem C1_stack_discipline :
    (∀ (T : Type) (ops : List (StackOp T)),
      (Vec.exec (Vec.new : Vec T) ops).1 = (stackExec [] ops).1)
    ∧ (∀ (T : Type) (v : Vec T), v.len = 0 → v.pop = (none, v))
    ∧ (Vec.exec (Vec.new : Vec Nat)
        [StackOp.push 1, StackOp.push 2, StackOp.pop, StackOp.pop, StackOp.pop]).1
      = [some 2, some 1, none] := by
  refine ⟨?_, ?_, ?_⟩
  · intro T ops
    exact (Vec.exec_sim ops Vec.new [] (by simpa using (Vec.new_reps (T := T)))).1
  · intro T v h
    exact v.pop_empty h
  · rfl

/-- Witness for C1: the empty-pop conjunct applied at the concrete empty
buffer. -/
theorem C1_witness :
    (Vec.new : Vec Nat).len = 0 ∧ (Vec.new : Vec Nat).pop = (none, Vec.new) :=
  ⟨rfl, C1_stack_discipline.2.1 Nat Vec.new rfl⟩

/-- Claim C9 evaluated at its failing input: two handles of one block
with count 2 drop concurrently under the interleaving `h0.fetch_sub;
h1.fetch_sub; h0.re-read; h1.re-read`.  Both separate re-reads observe 0,
so BOTH handles run the free — the claim's "exactly one handle — the one
whose re-read observes 0 — destroys the value and deallocates" is
violated by the code (the re-read is a separate load, not the value
returned by the `fetch_sub`). -/
theorem C9_double_free :
    arcRun ⟨2, [ArcPC.start, ArcPC.start]⟩ [0, 1, 0, 1]
      = some ⟨0, [ArcPC.done true, ArcPC.done true]⟩
    ∧ ArcSys.frees ⟨0, [ArcPC.done true, ArcPC.done true]⟩ = 2 := by decide

theorem LVec.push_toVec (v : LVec T) (x : T) :
    (v.push x).toVec = (v.toVec).push x := by
  obtain ⟨d, n⟩ := v
  simp only [LVec.push, Vec.push, LVec.toVec, LVec.cap, Vec.cap, LVec.grow,
    Vec.grow]
  by_cases hc : n = d.length
  · rw [if_pos hc, if_pos hc]
  · rw [if_neg hc, if_neg hc]

theorem LVec.pop_toVec (v : LVec T) :
    (v.pop).1 = ((v.toVec).pop).1 ∧ ((v.pop).2).toVec = ((v.toVec).pop).2 := by
  obtain ⟨d, n⟩ := v
  simp only [LVec.pop, Vec.pop, LVec.toVec]
  by_cases hz : n = 0
  · rw [if_pos hz, if_pos hz]
    exact ⟨rfl, rfl⟩
  · rw [if_neg hz, if_neg hz]
    exact ⟨rfl, rfl⟩

theorem LVec.exec_toVec (ops : List (StackOp T)) (v : LVec T) :
    (LVec.exec v ops).1 = (Vec.exec v.toVec ops).1
    ∧ ((LVec.exec v ops).2).toVec = (Vec.exec v.toVec ops).2 := by
  induction ops generalizing v with
  | nil => exact ⟨rfl, rfl⟩
  | cons op ops ih =>
    cases op with
    | push x =>
      have hstep := ih (v.push x)
      rw [LVec.push_toVec v x] at hstep
      simp only [LVec.exec, Vec.exec]
      exact hstep
    | pop =>
      obtain ⟨h1, h2⟩ := LVec.pop_toVec v
      have hstep := ih ((v.pop).2)
      rw [h2] at hstep
      simp only [LVec.exec, Vec.exec]
      exact ⟨by rw [h1, hstep.1], hstep.2⟩

theorem LVec.dropLoopFuel_toVec (fuel : Nat) (v : LVec T) :
    LVec.dropLoopFuel fuel v = Vec.dropLoopFuel fuel v.toVec := by
  induction fuel generalizing v with
  | zero => rfl
  | succ fuel ih =>
    obtain ⟨d, n⟩ := v
    simp only [LVec.dropLoopFuel, Vec.dropLoopFuel, LVec.pop, Vec.pop,
      LVec.toVec]
    by_cases hz : n = 0
    · rw [if_pos hz, if_pos hz]
    · rw [if_neg hz, if_neg hz]
      cases hr : readSlot d (n - 1) with
      | none => rfl
      | some x =>
        show x :: LVec.dropLoopFuel fuel ⟨d, n - 1⟩
          = x :: Vec.dropLoopFuel fuel (Vec.mk d (n - 1))
        rw [ih ⟨d, n - 1⟩]
        rfl

theorem LVec.dropRun_toVec (v : LVec T) :
    LVec.dropRun v = Vec.dropRun v.toVec := by
  obtain ⟨d, n⟩ := v
  simp only [LVec.dropRun, Vec.dropRun, LVec.cap, Vec.cap, LVec.toVec]
  by_cases hc : d.length ≠ 0
  · rw [if_pos hc, if_pos hc, LVec.dropLoopFuel_toVec]
    rfl
  · rw [if_neg hc, if_neg hc]

/-- Claim C10: the crate root (`src/lib.rs`) carries a second `Vec`
supporting only `new`, `push`, `pop`, the contiguous read view, and
destruction; on every sequence of push/pop operations from `new` it is
observationally equivalent to the `Vec` of `src/vec.rs`: the values
returned by `pop` coincide and the resulting `len`, `cap`, live contents
(read view), and destruction behaviour evolve identically. -/
theorem C10_lib_vec_equiv (T : Type) (ops : List (StackOp T)) :
    (LVec.exec (LVec.new : LVec T) ops).1 = (Vec.exec Vec.new ops).1
    ∧ ((LVec.exec (LVec.new : LVec T) ops).2).len
        = ((Vec.exec (Vec.new : Vec T) ops).2).len
    ∧ ((LVec.exec (LVec.new : LVec T) ops).2).cap
        = ((Vec.exec (Vec.new : Vec T) ops).2).cap
    ∧ ((LVec.exec (LVec.new : LVec T) ops).2).live
        = ((Vec.exec (Vec.new : Vec T) ops).2).live
    ∧ ((LVec.exec (LVec.new : LVec T) ops).2).dropRun
        = ((Vec.exec (Vec.new : Vec T) ops).2).dropRun := by
  obtain ⟨h1, h2⟩ := LVec.exec_toVec ops (LVec.new : LVec T)
  have hnew : (LVec.new : LVec T).toVec = Vec.new := rfl
  rw [hnew] at h1 h2
  refine ⟨h1, ?_, ?_, ?_, ?_⟩
  · rw [← h2]
    rfl
  · rw [← h2]
    rfl
  · rw [← h2]
    rfl
  · rw [← h2, ← LVec.dropRun_toVec]

end Nomicon

